import Mathlib

/-!
Verification of the LLM-Agent-POC backend servers.

The repository contains three near-identical Express server variants:
the first variant of src/server.js (toGeminiContents,
toGeminiFunctionDeclarations, fromGeminiCandidate, the /api/aipipe proxy
with env/override auth), the second variant (fromGeminiToOpenAIShape and
an /api/aipipe proxy), and the third variant, which is byte-identical to
src/unnamed/part_000 in its Gemini adapter (the message loop that folds
system turns into systemInstruction, wraps tool turns as
functionResponse payloads, and emits counter-based tool-call ids).

We shallowly embed the JavaScript values flowing through these handlers
as a JSON-like inductive type together with the JavaScript coercions the
code relies on (truthiness, property access, String(...) coercion,
logical-or defaulting), and embed each handler as a Lean function.
-/

/-- A JavaScript value as it appears in the handlers: the JSON universe
plus the distinguished undefined value produced by missing-property
access.  Numbers are modelled as integers; no claim below depends on
fractional numbers. -/
inductive JVal where
  | jundef
  | jnull
  | jbool (b : Bool)
  | jnum (n : Int)
  | jstr (s : String)
  | jarr (xs : List JVal)
  | jobj (fs : List (String × JVal))

open JVal

mutual

/-- Structural (JavaScript strict-style) equality test on values. -/
def JVal.beq : JVal → JVal → Bool
  | jundef, jundef => true
  | jnull, jnull => true
  | jbool a, jbool b => a == b
  | jnum a, jnum b => a == b
  | jstr a, jstr b => a == b
  | jarr xs, jarr ys => JVal.beqList xs ys
  | jobj fs, jobj gs => JVal.beqFields fs gs
  | _, _ => false

/-- Element-wise equality on arrays. -/
def JVal.beqList : List JVal → List JVal → Bool
  | [], [] => true
  | x :: xs, y :: ys => JVal.beq x y && JVal.beqList xs ys
  | _, _ => false

/-- Field-wise equality on objects (key order significant, as in our
embedding of object literals). -/
def JVal.beqFields : List (String × JVal) → List (String × JVal) → Bool
  | [], [] => true
  | (k, v) :: fs, (k2, v2) :: gs => k == k2 && JVal.beq v v2 && JVal.beqFields fs gs
  | _, _ => false

end

theorem JVal.beqList_iff (xs ys : List JVal)
    (h : ∀ x ∈ xs, ∀ b, (JVal.beq x b = true) ↔ x = b) :
    (JVal.beqList xs ys = true) ↔ xs = ys := by
  induction xs generalizing ys with
  | nil => cases ys <;> simp [JVal.beqList]
  | cons x xs ih =>
    cases ys with
    | nil => simp [JVal.beqList]
    | cons y ys =>
      have hx := h x (by simp)
      have hrest : ∀ x ∈ xs, ∀ b, (JVal.beq x b = true) ↔ x = b := by
        intro x hxm b; exact h x (by simp [hxm]) b
      simp [JVal.beqList, Bool.and_eq_true, hx y, ih ys hrest]

theorem JVal.beqFields_iff (fs gs : List (String × JVal))
    (h : ∀ p ∈ fs, ∀ b, (JVal.beq p.2 b = true) ↔ p.2 = b) :
    (JVal.beqFields fs gs = true) ↔ fs = gs := by
  induction fs generalizing gs with
  | nil => cases gs <;> simp [JVal.beqFields]
  | cons p fs ih =>
    obtain ⟨k, v⟩ := p
    cases gs with
    | nil => simp [JVal.beqFields]
    | cons q gs =>
      obtain ⟨k2, v2⟩ := q
      have hv := h (k, v) (by simp)
      have hrest : ∀ p ∈ fs, ∀ b, (JVal.beq p.2 b = true) ↔ p.2 = b := by
        intro p hpm b; exact h p (by simp [hpm]) b
      simp [JVal.beqFields, Bool.and_eq_true, hv v2, ih gs hrest, Prod.ext_iff]

theorem JVal.beq_iff_aux :
    ∀ (n : Nat) (a : JVal), sizeOf a ≤ n → ∀ b, (JVal.beq a b = true) ↔ a = b := by
  intro n
  induction n with
  | zero =>
    intro a ha
    exfalso
    cases a <;> simp at ha
  | succ n ih =>
    intro a ha b
    cases a with
    | jundef => cases b <;> simp [JVal.beq]
    | jnull => cases b <;> simp [JVal.beq]
    | jbool x => cases b <;> simp [JVal.beq]
    | jnum x => cases b <;> simp [JVal.beq]
    | jstr x => cases b <;> simp [JVal.beq]
    | jarr xs =>
      cases b <;> simp [JVal.beq]
      case jarr ys =>
        have hx : ∀ x ∈ xs, ∀ b, (JVal.beq x b = true) ↔ x = b := by
          intro x hxm b
          have hlt : sizeOf x < sizeOf xs := List.sizeOf_lt_of_mem hxm
          have hs : sizeOf (jarr xs) = 1 + sizeOf xs := by simp
          exact ih x (by omega) b
        exact JVal.beqList_iff xs ys hx
    | jobj fs =>
      cases b <;> simp [JVal.beq]
      case jobj gs =>
        have hx : ∀ p ∈ fs, ∀ b, (JVal.beq p.2 b = true) ↔ p.2 = b := by
          intro p hpm b
          have hlt : sizeOf p < sizeOf fs := List.sizeOf_lt_of_mem hpm
          have hp : sizeOf p = 1 + sizeOf p.1 + sizeOf p.2 := by
            obtain ⟨k, v⟩ := p; simp
          have hs : sizeOf (jobj fs) = 1 + sizeOf fs := by simp
          exact ih p.2 (by omega) b
        exact JVal.beqFields_iff fs gs hx

theorem JVal.beq_iff (a b : JVal) : (JVal.beq a b = true) ↔ a = b :=
  JVal.beq_iff_aux (sizeOf a) a (Nat.le_refl _) b

instance : DecidableEq JVal := fun a b => decidable_of_iff _ (JVal.beq_iff a b)

/-! ## JavaScript value semantics used by the handlers -/

/-- JavaScript truthiness (no NaN in the model; empty string, 0, null,
undefined and false are falsy, everything else truthy). -/
def JVal.truthy : JVal → Bool
  | jundef => false
  | jnull => false
  | jbool b => b
  | jnum n => n != 0
  | jstr s => s != ""
  | jarr _ => true
  | jobj _ => true

/-- The decimal digit character for d < 10. -/
def digitChar (d : Nat) : Char := Char.ofNat (48 + d)

/-- Decimal digits of a natural number, most significant first,
computed with explicit fuel (the fuel n + 1 always suffices). -/
def natCharsAux : Nat → Nat → List Char
  | 0, _ => []
  | fuel + 1, n =>
    if n < 10 then [digitChar n]
    else natCharsAux fuel (n / 10) ++ [digitChar (n % 10)]

/-- Decimal digits of a natural number. -/
def natChars (n : Nat) : List Char := natCharsAux (n + 1) n

/-- JavaScript Number.prototype.toString for a natural number. -/
def natStr (n : Nat) : String := ⟨natChars n⟩

/-- JavaScript Number.prototype.toString for an integer. -/
def intStr (n : Int) : String :=
  if n < 0 then "-" ++ natStr n.natAbs else natStr n.natAbs

mutual

/-- The JavaScript String(...) coercion for the values of our model. -/
def JVal.toJSString : JVal → String
  | jundef => "undefined"
  | jnull => "null"
  | jbool true => "true"
  | jbool false => "false"
  | jnum n => intStr n
  | jstr s => s
  | jarr xs => JVal.arrJSString xs
  | jobj _ => "[object Object]"

/-- Array toString: elements joined by commas, null and undefined
rendered as the empty string. -/
def JVal.arrJSString : List JVal → String
  | [] => ""
  | [x] => JVal.elemJSString x
  | x :: xs => JVal.elemJSString x ++ "," ++ JVal.arrJSString xs

/-- A single array element inside Array.prototype.toString. -/
def JVal.elemJSString : JVal → String
  | jundef => ""
  | jnull => ""
  | jbool true => "true"
  | jbool false => "false"
  | jnum n => intStr n
  | jstr s => s
  | jarr xs => JVal.arrJSString xs
  | jobj _ => "[object Object]"

end

/-- Property access v[k] in the positions where the receiver is known
not to be null or undefined (in JavaScript those would throw): objects
look the key up, primitives and arrays yield undefined for the keys the
handlers use. -/
def JVal.idx : JVal → String → JVal
  | jobj fs, k => match fs.lookup k with
    | some v => v
    | none => jundef
  | _, _ => jundef

/-- Optional chaining v?.k: null and undefined short-circuit to
undefined instead of throwing. -/
def JVal.optIdx (v : JVal) (k : String) : JVal :=
  match v with
  | jundef => jundef
  | jnull => jnull.idx k
  | _ => v.idx k

/-- Plain property access v.k as an exceptional computation: on null or
undefined receivers JavaScript throws a TypeError. -/
def JVal.get : JVal → String → Except String JVal
  | jundef, _ => .error "TypeError: Cannot read properties of undefined"
  | jnull, _ => .error "TypeError: Cannot read properties of null"
  | v, k => .ok (v.idx k)

/-- JavaScript logical or a || b. -/
def jsOr (a b : JVal) : JVal := if a.truthy then a else b

/-- JavaScript nullish coalescing a ?? b. -/
def jsNullish (a b : JVal) : JVal :=
  match a with
  | jundef => b
  | jnull => b
  | _ => a

/-- Destructuring default (const x = v with default d binds d exactly
when v is undefined). -/
def jsDflt (a b : JVal) : JVal :=
  match a with
  | jundef => b
  | _ => a

/-- Lookup of a key in an embedded object literal, used to state which
keys are present on a produced value. -/
def objLookup (v : JVal) (k : String) : Option JVal :=
  match v with
  | jobj fs => fs.lookup k
  | _ => none

/-! ## Decimal rendering facts, used for the counter-based tool-call ids -/

/-- Numeric value of a decimal digit character. -/
def digitVal (c : Char) : Nat := c.toNat - 48

/-- Value of a most-significant-first digit list. -/
def charsVal (cs : List Char) : Nat := cs.foldl (fun a c => a * 10 + digitVal c) 0

theorem charsVal_append_digit (l : List Char) (c : Char) :
    charsVal (l ++ [c]) = 10 * charsVal l + digitVal c := by
  unfold charsVal
  rw [List.foldl_append]
  simp [Nat.mul_comm]

theorem digitVal_digitChar (d : Nat) (h : d < 10) : digitVal (digitChar d) = d := by
  interval_cases d <;> decide

theorem digitChar_ne_us (d : Nat) (h : d < 10) : digitChar d ≠ '_' := by
  interval_cases d <;> decide

theorem natCharsAux_val :
    ∀ (fuel n : Nat), n < fuel → charsVal (natCharsAux fuel n) = n := by
  intro fuel
  induction fuel with
  | zero => intro n h; omega
  | succ fuel ih =>
    intro n h
    by_cases h10 : n < 10
    · simp [natCharsAux, h10, charsVal, digitVal_digitChar n h10]
    · have hdiv : n / 10 < fuel := by
        have h1 : n / 10 < n := Nat.div_lt_self (by omega) (by omega)
        omega
      simp only [natCharsAux, if_neg h10]
      rw [charsVal_append_digit, ih (n / 10) hdiv,
        digitVal_digitChar (n % 10) (Nat.mod_lt n (by omega))]
      omega

theorem natCharsAux_no_us :
    ∀ (fuel n : Nat), n < fuel → '_' ∉ natCharsAux fuel n := by
  intro fuel
  induction fuel with
  | zero => intro n h; omega
  | succ fuel ih =>
    intro n h
    by_cases h10 : n < 10
    · simp [natCharsAux, h10]
      exact fun he => digitChar_ne_us n h10 he.symm
    · have hdiv : n / 10 < fuel := by
        have h1 : n / 10 < n := Nat.div_lt_self (by omega) (by omega)
        omega
      simp only [natCharsAux, if_neg h10, List.mem_append, List.mem_singleton]
      rintro (hm | he)
      · exact ih (n / 10) hdiv hm
      · exact digitChar_ne_us (n % 10) (Nat.mod_lt n (by omega)) he.symm

theorem natChars_val (n : Nat) : charsVal (natChars n) = n :=
  natCharsAux_val (n + 1) n (Nat.lt_succ_self n)

theorem natChars_no_us (n : Nat) : '_' ∉ natChars n :=
  natCharsAux_no_us (n + 1) n (Nat.lt_succ_self n)

theorem natChars_inj {a b : Nat} (h : natChars a = natChars b) : a = b := by
  have := natChars_val a
  rw [h, natChars_val b] at this
  omega

theorem takeWhile_append_of_all {p : Char → Bool} :
    ∀ (a : List Char) (x : Char) (b : List Char),
      (∀ c ∈ a, p c = true) → p x = false →
      List.takeWhile p (a ++ x :: b) = a := by
  intro a x b ha hx
  induction a with
  | nil => simp [List.takeWhile, hx]
  | cons c a ih =>
    have hc : p c = true := ha c (by simp)
    simp [List.cons_append, List.takeWhile_cons, hc,
      ih (fun c hm => ha c (by simp [hm]))]

theorem suffix_after_us_cancel {x1 x2 r1 r2 : List Char}
    (h1 : '_' ∉ r1) (h2 : '_' ∉ r2)
    (he : x1 ++ '_' :: r1 = x2 ++ '_' :: r2) : r1 = r2 := by
  have hrev := congrArg List.reverse he
  simp only [List.reverse_append, List.reverse_cons] at hrev
  have hr1 : ∀ c ∈ r1.reverse, (c != '_') = true := by
    intro c hm
    have : c ∈ r1 := List.mem_reverse.mp hm
    simp only [bne_iff_ne, ne_eq]
    exact fun hc => h1 (hc ▸ this)
  have hr2 : ∀ c ∈ r2.reverse, (c != '_') = true := by
    intro c hm
    have : c ∈ r2 := List.mem_reverse.mp hm
    simp only [bne_iff_ne, ne_eq]
    exact fun hc => h2 (hc ▸ this)
  have t1 : List.takeWhile (fun c => c != '_') (r1.reverse ++ '_' :: x1.reverse)
      = r1.reverse := takeWhile_append_of_all _ _ _ hr1 (by decide)
  have t2 : List.takeWhile (fun c => c != '_') (r2.reverse ++ '_' :: x2.reverse)
      = r2.reverse := takeWhile_append_of_all _ _ _ hr2 (by decide)
  have hr : r1.reverse ++ '_' :: x1.reverse = r2.reverse ++ '_' :: x2.reverse := by
    simpa [List.append_assoc] using hrev
  have : r1.reverse = r2.reverse := by rw [← t1, hr, t2]
  simpa using congrArg List.reverse this

/-- The id string the third variant generates for the k-th tool call of
one response: call_ followed by the Date.now() timestamp, an
underscore, and the post-incremented counter. -/
def p0id (t k : Nat) : String := "call_" ++ natStr t ++ "_" ++ natStr k

theorem p0id_ne {t1 t2 k1 k2 : Nat} (h : k1 ≠ k2) : p0id t1 k1 ≠ p0id t2 k2 := by
  intro he
  apply h
  apply natChars_inj
  have hd := congrArg String.data he
  simp only [p0id, String.data_append] at hd
  have h1 : "call_".data ++ natChars t1 ++ "_".data ++ natChars k1
      = "call_".data ++ natChars t2 ++ "_".data ++ natChars k2 := hd
  have h2 : ("call_".data ++ natChars t1) ++ '_' :: natChars k1
      = ("call_".data ++ natChars t2) ++ '_' :: natChars k2 := by
    simpa [List.append_assoc] using h1
  exact suffix_after_us_cancel (natChars_no_us k1) (natChars_no_us k2) h2

/-! ## A model of JSON.parse and JSON.stringify

JSON.parse is the platform parser the adapters call on tool-turn
content; the general theorems below are stated over an arbitrary parse
function, and this executable model instantiates it in the concrete
counterexamples and witnesses.  It covers the whole JSON grammar except
fractional and exponent numbers, which it rejects (no concrete input
below contains a number at all). -/

/-- Skip JSON whitespace. -/
def skipWs : List Char → List Char
  | c :: cs => if c = ' ' ∨ c = '\t' ∨ c = '\n' ∨ c = '\r' then skipWs cs else c :: cs
  | [] => []

/-- Value of a hexadecimal digit character. -/
def hexVal (c : Char) : Option Nat :=
  if c.isDigit then some (c.toNat - 48)
  else if 'a' ≤ c ∧ c ≤ 'f' then some (c.toNat - 87)
  else if 'A' ≤ c ∧ c ≤ 'F' then some (c.toNat - 55)
  else none

/-- Parse the body of a JSON string literal (after the opening quote),
accumulating decoded characters in reverse. -/
def pStrChars : Nat → List Char → List Char → Option (List Char × List Char)
  | 0, _, _ => none
  | fuel + 1, acc, cs =>
    match cs with
    | [] => none
    | '"' :: rest => some (acc.reverse, rest)
    | '\\' :: rest =>
      match rest with
      | [] => none
      | e :: rest2 =>
        if e = '"' then pStrChars fuel ('"' :: acc) rest2
        else if e = '\\' then pStrChars fuel ('\\' :: acc) rest2
        else if e = '/' then pStrChars fuel ('/' :: acc) rest2
        else if e = 'n' then pStrChars fuel ('\n' :: acc) rest2
        else if e = 't' then pStrChars fuel ('\t' :: acc) rest2
        else if e = 'r' then pStrChars fuel ('\r' :: acc) rest2
        else if e = 'b' then pStrChars fuel (Char.ofNat 8 :: acc) rest2
        else if e = 'f' then pStrChars fuel (Char.ofNat 12 :: acc) rest2
        else if e = 'u' then
          match rest2 with
          | h1 :: h2 :: h3 :: h4 :: rest3 =>
            match hexVal h1, hexVal h2, hexVal h3, hexVal h4 with
            | some a, some b, some c, some d =>
              pStrChars fuel (Char.ofNat (((a * 16 + b) * 16 + c) * 16 + d) :: acc) rest3
            | _, _, _, _ => none
          | _ => none
        else none
    | c :: rest => if c.toNat < 32 then none else pStrChars fuel (c :: acc) rest

/-- Parse a JSON integer literal (fractional and exponent forms are
outside the model and rejected). -/
def pNum (cs : List Char) : Option (JVal × List Char) :=
  let neg := match cs with | '-' :: _ => true | _ => false
  let cs1 := if neg then cs.drop 1 else cs
  let ds := cs1.takeWhile (fun c => c.isDigit)
  let rest := cs1.drop ds.length
  if ds = [] then none
  else if ds.length > 1 ∧ ds.headD '0' = '0' then none
  else
    match rest with
    | '.' :: _ => none
    | 'e' :: _ => none
    | 'E' :: _ => none
    | _ =>
      let n : Nat := charsVal ds
      some (jnum (if neg then -(n : Int) else (n : Int)), rest)

/-- Insert a parsed object field with JavaScript duplicate-key
semantics: the later value wins, the earlier position is kept. -/
def insertField : List (String × JVal) → String → JVal → List (String × JVal)
  | [], k, v => [(k, v)]
  | (k2, v2) :: rest, k, v =>
    if k2 = k then (k2, v) :: rest else (k2, v2) :: insertField rest k v

mutual

/-- Parse one JSON value. -/
def pVal : Nat → List Char → Option (JVal × List Char)
  | 0, _ => none
  | fuel + 1, cs =>
    match skipWs cs with
    | 'n' :: 'u' :: 'l' :: 'l' :: rest => some (jnull, rest)
    | 't' :: 'r' :: 'u' :: 'e' :: rest => some (jbool true, rest)
    | 'f' :: 'a' :: 'l' :: 's' :: 'e' :: rest => some (jbool false, rest)
    | '"' :: rest =>
      match pStrChars (rest.length + 1) [] rest with
      | some (l, r) => some (jstr ⟨l⟩, r)
      | none => none
    | '[' :: rest =>
      match skipWs rest with
      | ']' :: r => some (jarr [], r)
      | _ => pElems fuel rest []
    | '\x7b' :: rest =>
      match skipWs rest with
      | '\x7d' :: r => some (jobj [], r)
      | _ => pFields fuel rest []
    | rest => pNum rest

/-- Parse the elements of a non-empty JSON array. -/
def pElems : Nat → List Char → List JVal → Option (JVal × List Char)
  | 0, _, _ => none
  | fuel + 1, cs, acc =>
    match pVal fuel cs with
    | none => none
    | some (v, r) =>
      match skipWs r with
      | ',' :: r2 => pElems fuel r2 (acc ++ [v])
      | ']' :: r2 => some (jarr (acc ++ [v]), r2)
      | _ => none

/-- Parse the fields of a non-empty JSON object. -/
def pFields : Nat → List Char → List (String × JVal) → Option (JVal × List Char)
  | 0, _, _ => none
  | fuel + 1, cs, acc =>
    match skipWs cs with
    | '"' :: rest =>
      match pStrChars (rest.length + 1) [] rest with
      | none => none
      | some (kl, r) =>
        match skipWs r with
        | ':' :: r2 =>
          match pVal fuel r2 with
          | none => none
          | some (v, r3) =>
            match skipWs r3 with
            | ',' :: r4 => pFields fuel r4 (insertField acc ⟨kl⟩ v)
            | '\x7d' :: r4 => some (jobj (insertField acc ⟨kl⟩ v), r4)
            | _ => none
        | _ => none
    | _ => none

end

/-- The model of JSON.parse: parse one value, then require only
whitespace to remain. -/
def jsonParse (s : String) : Option JVal :=
  match pVal (2 * s.length + 2) s.data with
  | some (v, rest) => if skipWs rest = [] then some v else none
  | none => none

/-- A hexadecimal digit character. -/
def hexDigit (d : Nat) : Char := if d < 10 then digitChar d else Char.ofNat (87 + d)

/-- Escape one character of a JSON string literal. -/
def escJSONChar (c : Char) : String :=
  if c = '"' then "\\\""
  else if c = '\\' then "\\\\"
  else if c = '\n' then "\\n"
  else if c = '\t' then "\\t"
  else if c = '\r' then "\\r"
  else if c.toNat = 8 then "\\b"
  else if c.toNat = 12 then "\\f"
  else if c.toNat < 32 then "\\u00" ++ ⟨[hexDigit (c.toNat / 16), hexDigit (c.toNat % 16)]⟩
  else ⟨[c]⟩

/-- Render a JSON string literal. -/
def quoteJSON (s : String) : String :=
  "\"" ++ String.join (s.data.map escJSONChar) ++ "\""

mutual

/-- The model of JSON.stringify (no indentation argument, as in the
handlers). -/
def jsonStringify : JVal → String
  | jundef => "undefined"
  | jnull => "null"
  | jbool true => "true"
  | jbool false => "false"
  | jnum n => intStr n
  | jstr s => quoteJSON s
  | jarr xs => "[" ++ stringifyElems xs ++ "]"
  | jobj fs => "\x7b" ++ stringifyFields fs ++ "\x7d"

/-- Array elements, comma separated. -/
def stringifyElems : List JVal → String
  | [] => ""
  | [x] => stringifyElem x
  | x :: xs => stringifyElem x ++ "," ++ stringifyElems xs

/-- One array element: undefined serializes as null inside arrays. -/
def stringifyElem : JVal → String
  | jundef => "null"
  | jnull => "null"
  | jbool true => "true"
  | jbool false => "false"
  | jnum n => intStr n
  | jstr s => quoteJSON s
  | jarr xs => "[" ++ stringifyElems xs ++ "]"
  | jobj fs => "\x7b" ++ stringifyFields fs ++ "\x7d"

/-- Object fields, comma separated; undefined-valued fields are
dropped. -/
def stringifyFields : List (String × JVal) → String
  | [] => ""
  | (k, v) :: rest =>
    let s := stringifyFields rest
    match v with
    | jundef => s
    | _ =>
      let f := quoteJSON k ++ ":" ++ stringifyElem v
      if s = "" then f else f ++ "," ++ s

end

/-! ## Data model of the Gemini adapter -/

/-- Is the value a string (the typeof check of the first variant)? -/
def JVal.isStringV : JVal → Bool
  | jstr _ => true
  | _ => false

/-- One part of a Gemini content entry as the handlers build it. -/
inductive GPart where
  | text (v : JVal)
  | functionResponse (name : JVal) (response : JVal)
deriving DecidableEq

/-- One Gemini contents entry (role plus parts). -/
structure GContent where
  role : JVal
  parts : List GPart
deriving DecidableEq

/-- A Gemini function declaration as built from an OpenAI-style tool;
the fields carry whatever values the source object held. -/
structure FunctionDecl where
  name : JVal
  description : JVal
  parameters : JVal
deriving DecidableEq

/-- An OpenAI-style tool call record as the adapters emit it. -/
structure ToolCall where
  id : String
  name : JVal
  args : String
deriving DecidableEq

/-- Serialization of a ToolCall back to its JSON wire object. -/
def ToolCall.toJVal (tc : ToolCall) : JVal :=
  jobj [("id", jstr tc.id), ("type", jstr "function"),
    ("function", jobj [("name", tc.name), ("arguments", jstr tc.args)])]

deriving instance DecidableEq for Except

/-! ## First variant of src/server.js: toGeminiContents,
toGeminiFunctionDeclarations, fromGeminiCandidate -/

/-- toGeminiContents of the first variant: keep exactly the turns that
are truthy and whose content is a string, map assistant to model and
everything else to user. -/
def toGeminiContents (messages : List JVal) : List GContent :=
  (messages.filter fun m => m.truthy && (m.idx "content").isStringV).map fun m =>
    { role := if m.idx "role" == jstr "assistant" then jstr "model" else jstr "user",
      parts := [GPart.text (m.idx "content")] }

/-- toGeminiFunctionDeclarations of the first variant: keep tools whose
type is the string function and whose function name is truthy; default
a falsy description to the empty string and falsy parameters to the
object with a single field type: object. -/
def toGeminiFunctionDeclarations (tools : List JVal) : List FunctionDecl :=
  (tools.filter fun t =>
      (t.optIdx "type" == jstr "function") && ((t.idx "function").optIdx "name").truthy).map
    fun t =>
      { name := (t.idx "function").idx "name",
        description := jsOr ((t.idx "function").idx "description") (jstr ""),
        parameters := jsOr ((t.idx "function").idx "parameters") (jobj [("type", jstr "object")]) }

/-- The Gemini request payload the first variant builds in its route
handler.  The temperature field records the request value; none marks
the destructuring default 0.3, a fractional literal outside the integer
number model. -/
structure GeminiPayloadA where
  contents : List GContent
  temperature : Option JVal
  systemInstruction : Option GContent
  tools : Option (List FunctionDecl)
deriving DecidableEq

/-- The neutral-to-native request construction of the first variant's
/api/gemini/chat handler: destructure with defaults, convert messages
and tools, spread systemInstruction only when system is truthy and
tools only when the declaration list is non-empty.  A truthy non-array
messages or tools value makes the JavaScript filter call throw, which
the embedding reports as an error. -/
def toNativeRequestA (messages tools system temperature : JVal) :
    Except String GeminiPayloadA := do
  let messagesV := jsDflt messages (jarr [])
  let toolsV := jsOr (jsDflt tools (jarr [])) (jarr [])
  let systemV := jsDflt system (jstr "")
  let contents ← match messagesV with
    | jarr xs => Except.ok (toGeminiContents xs)
    | _ => Except.error "TypeError: messages.filter is not a function"
  let decls ← match toolsV with
    | jarr xs => Except.ok (toGeminiFunctionDeclarations xs)
    | _ => Except.error "TypeError: tools.filter is not a function"
  Except.ok
    { contents := contents,
      temperature := match temperature with | jundef => none | v => some v,
      systemInstruction :=
        if systemV.truthy then some ⟨jstr "system", [GPart.text systemV]⟩ else none,
      tools := if decls.length != 0 then some decls else none }

/-- Iteration of a JavaScript for..of loop over the already-defaulted
parts value: arrays iterate their elements, strings iterate their
characters, anything else throws. -/
def asIter : JVal → Except String (List JVal)
  | jarr xs => .ok xs
  | jstr s => .ok (s.data.map fun c => jstr ⟨[c]⟩)
  | _ => .error "TypeError: parts is not iterable"

/-- The shared candidate-parts loop of fromGeminiCandidate (first
variant) and fromGeminiToOpenAIShape (second variant): concatenate the
truthy text parts joined by newlines, and for each truthy functionCall
part push a tool call whose id is the k-th fresh uuid and whose
arguments are the JSON-serialized args (or the empty object). -/
def fgcLoop (uuid : Nat → String) : List JVal → String → Nat → String × List ToolCall
  | [], text, _ => (text, [])
  | p :: rest, text, k =>
    let t := p.optIdx "text"
    let text2 := if t.truthy then text ++ (if text ≠ "" then "\n" else "") ++ t.toJSString
      else text
    let fc := p.optIdx "functionCall"
    if fc.truthy then
      let args := jsOr (fc.idx "args") (jobj [])
      let r := fgcLoop uuid rest text2 (k + 1)
      (r.1, ⟨uuid k, fc.idx "name", jsonStringify args⟩ :: r.2)
    else
      fgcLoop uuid rest text2 k

/-- The parts list a candidate yields in the first variant:
candidate?.content?.parts defaulted to the empty array, then iterated. -/
def candParts (candidate : JVal) : Except String (List JVal) :=
  asIter (jsOr ((candidate.optIdx "content").optIdx "parts") (jarr []))

/-- The neutral assistant message of the first variant; the tool_calls
key is spread onto the object only when the list is non-empty, modelled
by the Option. -/
structure AssistantMsg where
  content : String
  tool_calls : Option (List ToolCall)
deriving DecidableEq

/-- fromGeminiCandidate of the first variant. -/
def fromGeminiCandidate (uuid : Nat → String) (candidate : JVal) :
    Except String AssistantMsg := do
  let parts ← candParts candidate
  let r := fgcLoop uuid parts "" 0
  .ok ⟨r.1, if r.2.length != 0 then some r.2 else none⟩

/-! ## Second variant: fromGeminiToOpenAIShape -/

/-- Index 0 access v?.[0]. -/
def idx0 : JVal → JVal
  | jarr (x :: _) => x
  | jstr s => match s.data with
    | c :: _ => jstr ⟨[c]⟩
    | [] => jundef
  | jobj fs => match fs.lookup "0" with
    | some v => v
    | none => jundef
  | _ => jundef

/-- The message of the second variant's single choice: both content and
tool_calls are initialized up front, so the tool_calls key is always
present, possibly as an empty list. -/
structure BChoice where
  content : String
  tool_calls : List ToolCall
deriving DecidableEq

/-- Serialization of the second variant's message object; the
tool_calls key is present unconditionally. -/
def BChoice.msgJVal (c : BChoice) : JVal :=
  jobj [("role", jstr "assistant"), ("content", jstr c.content),
    ("tool_calls", jarr (c.tool_calls.map ToolCall.toJVal))]

/-- fromGeminiToOpenAIShape of the second variant. -/
def fromGeminiToOpenAIShape (uuid : Nat → String) (gemini : JVal) :
    Except String BChoice := do
  let cand := idx0 (gemini.optIdx "candidates")
  let parts ← asIter (jsOr ((cand.optIdx "content").optIdx "parts") (jarr []))
  let r := fgcLoop uuid parts "" 0
  .ok ⟨r.1, r.2⟩

/-! ## Third variant (src/unnamed/part_000): the message loop of
/api/gemini/chat and its response normalization -/

/-- The functionResponse name of a tool turn:
m.name || m.tool_name || "tool". -/
def toolName (m : JVal) : JVal :=
  jsOr (m.idx "name") (jsOr (m.idx "tool_name") (jstr "tool"))

/-- The functionResponse payload of a tool turn: parse the content as
JSON when truthy (JSON.parse coerces its argument to a string first);
on a parse failure substitute the object with the single field raw
bound to String(m.content || ""); falsy content yields the empty
object. -/
def toolPayload (parse : String → Option JVal) (m : JVal) : JVal :=
  let c := m.idx "content"
  if c.truthy then
    match parse c.toJSString with
    | some v => v
    | none => jobj [("raw", jstr (jsOr c (jstr "")).toJSString)]
  else jobj []

/-- The instruction object built from an in-sequence system turn:
role system with text String(m.content || ""). -/
def sysInstrOf (m : JVal) : GContent :=
  ⟨jstr "system", [GPart.text (jstr (jsOr (m.idx "content") (jstr "")).toJSString)]⟩

/-- The message loop of the third variant: system turns overwrite the
systemInstruction accumulator and are dropped from the contents, tool
turns become functionResponse entries, and the remaining turns map
assistant to model, user to user and any other role through unchanged.
Accessing .role on a null or undefined turn throws. -/
def p0Loop (parse : String → Option JVal) :
    List JVal → List GContent → Option GContent →
      Except String (List GContent × Option GContent)
  | [], cs, si => .ok (cs, si)
  | m :: rest, cs, si =>
    match m.get "role" with
    | .error e => .error e
    | .ok role =>
      if role = jstr "system" then
        p0Loop parse rest cs (some (sysInstrOf m))
      else if role = jstr "tool" then
        p0Loop parse rest
          (cs ++ [⟨jstr "tool", [GPart.functionResponse (toolName m) (toolPayload parse m)]⟩]) si
      else
        let gemRole := if role = jstr "assistant" then jstr "model"
          else if role = jstr "user" then jstr "user" else role
        p0Loop parse rest
          (cs ++ [⟨gemRole, [GPart.text (jstr (jsOr (m.idx "content") (jstr "")).toJSString)]⟩]) si

/-- The initial systemInstruction from the explicit request parameter:
present only when the parameter is truthy, with text String(system). -/
def p0SysParam (system : JVal) : Option GContent :=
  if system.truthy then some ⟨jstr "system", [GPart.text (jstr system.toJSString)]⟩ else none

/-- Contents and systemInstruction of the third variant's request
construction. -/
def p0Contents (parse : String → Option JVal) (system : JVal) (messages : List JVal) :
    Except String (List GContent × Option GContent) :=
  p0Loop parse messages [] (p0SysParam system)

/-- The tool-call extraction loop of the third variant's response
normalization: parts with a truthy functionCall name become tool calls
whose ids interpolate Date.now() (the time function gives its value at
the k-th push) and the post-incremented counter. -/
def p0Extract (time : Nat → Nat) : List JVal → Nat → Except String (List ToolCall)
  | [], _ => .ok []
  | p :: rest, k =>
    match p.get "functionCall" with
    | .error e => .error e
    | .ok fc =>
      let nm := fc.optIdx "name"
      if nm.truthy then
        let args := jsOr (fc.idx "args") (jsOr (fc.idx "arguments") (jobj []))
        match p0Extract time rest (k + 1) with
        | .error e => .error e
        | .ok tcs => .ok (⟨p0id (time k) k, nm, jsonStringify args⟩ :: tcs)
      else p0Extract time rest k

/-! ## The /api/aipipe gateways -/

/-- One upstream fetch outcome: either the promise rejects with an
error whose message is msg (connection reset, network unreachable,
fetch failure, socket closure, TLS failure, timeout and so on), or an
HTTP response with a status and a text body arrives. -/
inductive FetchOutcome where
  | fault (msg : String)
  | resp (status : Nat) (text : String)
deriving DecidableEq

/-- The HTTP result a gateway handler sends back. -/
structure GatewayResult where
  status : Nat
  body : JVal
deriving DecidableEq

/-- The fixed three-step structure both mock responses embed. -/
def mockSteps : JVal :=
  jarr [jobj [("name", jstr "parse"), ("status", jstr "ok")],
    jobj [("name", jstr "analyze"), ("status", jstr "ok")],
    jobj [("name", jstr "summarize"), ("status", jstr "ok")]]

/-- The offline mock of the first variant: the input field of the body
is coerced with String(req.body?.input ?? "") and echoed both verbatim
and inside the summary. -/
def mockA (body : JVal) (now : String) : JVal :=
  let input := (jsNullish (body.optIdx "input") (jstr "")).toJSString
  jobj [("ok", jbool true), ("engine", jstr "mock"), ("received_input", jstr input),
    ("steps", mockSteps),
    ("summary", jstr ("AI Pipe mock processed: \"" ++ input ++ "\"")),
    ("timestamp", jstr now)]

/-- The offline mock of the third variant (and of the third copy inside
src/server.js): input is destructured with default empty string and
echoed raw; an empty or otherwise falsy input selects the fixed
no-input summary instead of the interpolated one. -/
def p0Mock (body : JVal) (now : String) : JVal :=
  let input := jsDflt ((jsOr body (jobj [])).idx "input") (jstr "")
  jobj [("ok", jbool true), ("engine", jstr "mock"), ("received_input", input),
    ("steps", mockSteps),
    ("summary", jstr (if input.truthy then "AI Pipe mock processed: \"" ++ input.toJSString ++ "\""
      else "AI Pipe mock: no input provided.")),
    ("timestamp", jstr now)]

/-- The /api/aipipe handler of the first variant.  The second component
lists the Authorization header of each outbound fetch actually
performed, so its length is the number of upstream calls.  With no
endpoint configured the mock is returned with no call; with an endpoint
but no credential (neither header override nor configured token) a 401
is returned with no call; otherwise exactly one fetch happens and a
rejection, a non-2xx response or an unparseable success body are each
surfaced immediately. -/
def aipipeA (url auth headerAuth : String) (body : JVal) (now : String)
    (net : Nat → FetchOutcome) : GatewayResult × List (Option String) :=
  if url = "" then ({ status := 200, body := mockA body now }, [])
  else
    let token := if headerAuth ≠ "" then headerAuth else auth
    if token = "" then
      ({ status := 401, body := jobj [("ok", jbool false), ("error", jstr "Unauthorized")] }, [])
    else
      match net 0 with
      | .fault msg =>
        ({ status := 500,
           body := jobj [("ok", jbool false),
             ("error", jstr (if msg ≠ "" then msg else "Error"))] }, [some token])
      | .resp st text =>
        if 200 ≤ st ∧ st < 300 then
          match jsonParse text with
          | some v => ({ status := 200, body := v }, [some token])
          | none =>
            ({ status := 500,
               body := jobj [("ok", jbool false),
                 ("error", jstr "Unexpected token in JSON")] }, [some token])
        else
          ({ status := st,
             body := jobj [("ok", jbool false),
               ("error", jstr ("AI Pipe upstream " ++ natStr st)), ("detail", jstr text)] },
           [some token])

/-- Strip one matching pair of the given quote character from both ends
(the regex anchors require at least the two quotes and the dot excludes
line terminators). -/
def dequoteOnce (q : Char) (s : String) : String :=
  match s.data with
  | c :: rest =>
    if c = q ∧ rest ≠ [] ∧ rest.getLast? = some q ∧
        rest.dropLast.all (fun c2 => c2 ≠ '\n' ∧ c2 ≠ '\r') then
      ⟨rest.dropLast⟩
    else s
  | [] => s

/-- Case-insensitive test for a leading Bearer followed by at least one
whitespace character. -/
def isBearerWS (s : String) : Bool :=
  match s.data with
  | c1 :: c2 :: c3 :: c4 :: c5 :: c6 :: c7 :: _ =>
    c1.toLower = 'b' ∧ c2.toLower = 'e' ∧ c3.toLower = 'a' ∧ c4.toLower = 'r' ∧
      c5.toLower = 'e' ∧ c6.toLower = 'r' ∧ c7.isWhitespace
  | _ => false

/-- The whitespace trim of a header or environment token. -/
def jsTrim (s : String) : String :=
  ⟨((s.data.dropWhile Char.isWhitespace).reverse.dropWhile Char.isWhitespace).reverse⟩

/-- normalizeToken of the third variant's proxy branch: trim, strip
matching double then single quotes, and prefix Bearer when the token
does not already start with it. -/
def normalizeToken (raw : String) : String :=
  let t := dequoteOnce '\'' (dequoteOnce '"' (jsTrim raw))
  if t = "" then ""
  else if isBearerWS t then t
  else "Bearer " ++ t

/-- First non-empty string, the || chain over normalized tokens. -/
def strOr (a b : String) : String := if a ≠ "" then a else b

/-- The /api/aipipe handler of the third variant.  With no endpoint the
third-variant mock is returned; otherwise exactly one fetch always
happens — when no credential is available the request is simply sent
without an Authorization header (the entry is none) — and the upstream
status is passed through with the parsed body, or the raw text wrapped
in a raw field when the body is not JSON. -/
def aipipeC (url auth hdrX hdrAuthz : String) (body : JVal) (now : String)
    (net : Nat → FetchOutcome) : GatewayResult × List (Option String) :=
  if url = "" then ({ status := 200, body := p0Mock body now }, [])
  else
    let token := strOr (normalizeToken hdrX) (strOr (normalizeToken hdrAuthz) (normalizeToken auth))
    let authHdr := if token ≠ "" then some token else none
    match net 0 with
    | .fault msg =>
      ({ status := 500,
         body := jobj [("ok", jbool false),
           ("error", jstr (if msg ≠ "" then msg else "AI Pipe failed"))] }, [authHdr])
    | .resp st text =>
      let payload := match jsonParse text with
        | some v => v
        | none => jobj [("raw", jstr text)]
      ({ status := st, body := payload }, [authHdr])

/-! ## Supporting lemmas -/

theorem jsOr_truthy (a b : JVal) : (jsOr a b).truthy = (a.truthy || b.truthy) := by
  unfold jsOr
  by_cases h : a.truthy <;> simp [h]

theorem JVal.get_ok {p : JVal} {k : String} {v : JVal} (h : p.get k = .ok v) :
    v = p.idx k := by
  cases p <;> simp [JVal.get] at h <;> simp [h]

theorem natStr_injective : Function.Injective natStr := by
  intro a b h
  exact natChars_inj (congrArg String.data h)

/-! ## C10 -/

/-- C10: in the first variant's toGeminiContents every turn whose content is
not a string is silently dropped: the native contents are never longer than
the neutral input, removing such a turn from anywhere in the sequence leaves
the output unchanged, and the concrete assistant turn carrying only
tool_calls with null content maps to the empty contents list, so the native
request has strictly fewer turns and no role/content round trip can restore
the dropped turn. -/
theorem c10_non_string_content_turns_dropped
    (msgs xs ys : List JVal) (m : JVal)
    (h : (m.idx "content").isStringV = false) :
    (toGeminiContents msgs).length ≤ msgs.length
      ∧ toGeminiContents (xs ++ m :: ys) = toGeminiContents (xs ++ ys)
      ∧ toGeminiContents
          [jobj [("role", jstr "assistant"), ("content", jnull), ("tool_calls", jarr [])]]
          = [] := by
  refine ⟨?_, ?_, by decide⟩
  · calc (toGeminiContents msgs).length
        = (msgs.filter fun m => m.truthy && (m.idx "content").isStringV).length := by
          simp [toGeminiContents]
      _ ≤ msgs.length := List.length_filter_le _ _
  · unfold toGeminiContents
    rw [List.filter_append, List.filter_append, List.filter_cons_of_neg]
    simp [h]

/-- Witness for C10 at a concrete conversation. -/
theorem c10_witness :
    (toGeminiContents [jobj [("role", jstr "user"), ("content", jstr "hi")]]).length ≤ 1
      ∧ toGeminiContents ([jobj [("role", jstr "user"), ("content", jstr "hi")]] ++
          jobj [("role", jstr "assistant"), ("content", jnull), ("tool_calls", jarr [])] :: [])
        = toGeminiContents ([jobj [("role", jstr "user"), ("content", jstr "hi")]] ++ [])
      ∧ toGeminiContents
          [jobj [("role", jstr "assistant"), ("content", jnull), ("tool_calls", jarr [])]]
          = [] :=
  c10_non_string_content_turns_dropped _ _ _ _ (by decide)

/-! ## C7 -/

/-- C7 counterexample: a tool declaration missing its parameters is mapped
with parameters equal to the object holding the single field type: object;
there is no properties key, so the emitted default differs from the claimed
default object with type: object and an empty properties object. -/
theorem c7_cex_parameters_default :
    toGeminiFunctionDeclarations [jobj [("type", jstr "function"),
        ("function", jobj [("name", jstr "f")])]]
      = [⟨jstr "f", jstr "", jobj [("type", jstr "object")]⟩]
    ∧ objLookup (jobj [("type", jstr "object")]) "properties" = none
    ∧ jobj [("type", jstr "object")]
        ≠ jobj [("type", jstr "object"), ("properties", jobj [])] := by decide

/-- C7 amended: a kept tool declaration missing description and parameters
is mapped with description defaulted to the empty string and parameters
defaulted to the object with the single field type: object (no properties
key); moreover the parameters field of every emitted declaration is present
and truthy, never omitted. -/
theorem c7_declaration_defaults (t : JVal)
    (hty : t.optIdx "type" = jstr "function")
    (hnm : ((t.idx "function").optIdx "name").truthy = true)
    (hd : (t.idx "function").idx "description" = jundef)
    (hp : (t.idx "function").idx "parameters" = jundef) :
    toGeminiFunctionDeclarations [t]
      = [⟨(t.idx "function").idx "name", jstr "", jobj [("type", jstr "object")]⟩]
    ∧ ∀ tools, ∀ d ∈ toGeminiFunctionDeclarations tools, d.parameters.truthy = true := by
  constructor
  · unfold toGeminiFunctionDeclarations
    rw [List.filter_cons_of_pos (by simp [hty, hnm])]
    simp [jsOr, hd, hp, JVal.truthy]
  · intro tools d hmem
    unfold toGeminiFunctionDeclarations at hmem
    simp only [List.mem_map, List.mem_filter] at hmem
    obtain ⟨t2, _, rfl⟩ := hmem
    rw [jsOr_truthy]
    simp [JVal.truthy]

/-- Witness for C7 at a concrete declaration list. -/
theorem c7_witness :
    toGeminiFunctionDeclarations [jobj [("type", jstr "function"),
        ("function", jobj [("name", jstr "g")])]]
      = [⟨jstr "g", jstr "", jobj [("type", jstr "object")]⟩]
    ∧ ∀ tools, ∀ d ∈ toGeminiFunctionDeclarations tools, d.parameters.truthy = true :=
  c7_declaration_defaults (jobj [("type", jstr "function"),
    ("function", jobj [("name", jstr "g")])]) (by decide) (by decide) (by decide) (by decide)

/-! ## C4 -/

/-- C4 counterexample: the third variant's mock at the empty input string
returns the fixed no-input summary instead of interpolating the empty
string into the claimed summary format. -/
theorem c4_cex_empty_input_summary :
    objLookup (p0Mock (jobj [("input", jstr "")]) "2025-01-01T00:00:00.000Z") "summary"
      = some (jstr "AI Pipe mock: no input provided.")
    ∧ "AI Pipe mock: no input provided." ≠ "AI Pipe mock processed: \"\"" := by decide

/-- C4 amended: with no endpoint configured both gateways answer locally
with zero outbound calls; for every nonempty input string s both mocks
return ok, engine mock, received_input s, the fixed parse/analyze/summarize
steps and the summary interpolating s; the first variant's mock also
interpolates the empty string, while the third variant's empty-input
summary is the fixed no-input text of the counterexample. -/
theorem c4_offline_mock_echo (body : JVal) (now s : String)
    (net : Nat → FetchOutcome) (auth hdr hdrX hdrAuthz : String)
    (hs : s ≠ "")
    (hA : body.optIdx "input" = jstr s)
    (hP : (jsOr body (jobj [])).idx "input" = jstr s) :
    mockA body now
      = jobj [("ok", jbool true), ("engine", jstr "mock"), ("received_input", jstr s),
          ("steps", mockSteps),
          ("summary", jstr ("AI Pipe mock processed: \"" ++ s ++ "\"")),
          ("timestamp", jstr now)]
    ∧ p0Mock body now
      = jobj [("ok", jbool true), ("engine", jstr "mock"), ("received_input", jstr s),
          ("steps", mockSteps),
          ("summary", jstr ("AI Pipe mock processed: \"" ++ s ++ "\"")),
          ("timestamp", jstr now)]
    ∧ aipipeA "" auth hdr body now net = ({ status := 200, body := mockA body now }, [])
    ∧ aipipeC "" auth hdrX hdrAuthz body now net
        = ({ status := 200, body := p0Mock body now }, [])
    ∧ objLookup (mockA (jobj [("input", jstr "")]) now) "summary"
        = some (jstr "AI Pipe mock processed: \"\"") := by
  refine ⟨?_, ?_, by simp [aipipeA], by simp [aipipeC], by rfl⟩
  · simp [mockA, hA, jsNullish, JVal.toJSString]
  · simp only [p0Mock, hP, jsDflt]
    simp [JVal.truthy, hs, JVal.toJSString]

/-- Witness for C4 at the input hello of the specification. -/
theorem c4_witness :
    mockA (jobj [("input", jstr "hello")]) "2025-01-01T00:00:00.000Z"
      = jobj [("ok", jbool true), ("engine", jstr "mock"), ("received_input", jstr "hello"),
          ("steps", mockSteps),
          ("summary", jstr ("AI Pipe mock processed: \"" ++ "hello" ++ "\"")),
          ("timestamp", jstr "2025-01-01T00:00:00.000Z")]
    ∧ p0Mock (jobj [("input", jstr "hello")]) "2025-01-01T00:00:00.000Z"
      = jobj [("ok", jbool true), ("engine", jstr "mock"), ("received_input", jstr "hello"),
          ("steps", mockSteps),
          ("summary", jstr ("AI Pipe mock processed: \"" ++ "hello" ++ "\"")),
          ("timestamp", jstr "2025-01-01T00:00:00.000Z")]
    ∧ aipipeA "" "" "" (jobj [("input", jstr "hello")]) "2025-01-01T00:00:00.000Z"
        (fun _ => FetchOutcome.resp 200 "\x7b\x7d")
        = ({ status := 200,
             body := mockA (jobj [("input", jstr "hello")]) "2025-01-01T00:00:00.000Z" }, [])
    ∧ aipipeC "" "" "" "" (jobj [("input", jstr "hello")]) "2025-01-01T00:00:00.000Z"
        (fun _ => FetchOutcome.resp 200 "\x7b\x7d")
        = ({ status := 200,
             body := p0Mock (jobj [("input", jstr "hello")]) "2025-01-01T00:00:00.000Z" }, [])
    ∧ objLookup (mockA (jobj [("input", jstr "")]) "2025-01-01T00:00:00.000Z") "summary"
        = some (jstr "AI Pipe mock processed: \"\"") :=
  c4_offline_mock_echo (jobj [("input", jstr "hello")]) "2025-01-01T00:00:00.000Z" "hello"
    (fun _ => FetchOutcome.resp 200 "\x7b\x7d") "" "" "" ""
    (by decide) (by decide) (by decide)

/-! ## C8 -/

/-- C8 counterexample: a non-array turn list reaches messages.filter of the
first variant, which throws a TypeError instead of producing a native
payload (the third variant instead rejects such a request with a 400 before
any adapter work). -/
theorem c8_cex_non_array_turn_list :
    toNativeRequestA (jnum 5) jundef jundef jundef
      = .error "TypeError: messages.filter is not a function" := by decide

/-- C8 amended: the first variant's request construction is total whenever
the turn list is an array or absent and the tool list is an array or falsy,
with arbitrarily malformed elements inside (missing roles, null turns,
declarations without parameters or description all degrade to defaults or
are filtered); a truthy non-array turn or tool list, however, throws. -/
theorem c8_total_on_array_inputs (messages tools system temperature : JVal)
    (hm : messages = jundef ∨ ∃ xs, messages = jarr xs)
    (ht : tools.truthy = false ∨ ∃ xs, tools = jarr xs) :
    ∃ r, toNativeRequestA messages tools system temperature = .ok r := by
  have hmc : ∃ xs, jsDflt messages (jarr []) = jarr xs := by
    rcases hm with rfl | ⟨xs, rfl⟩
    · exact ⟨[], rfl⟩
    · exact ⟨xs, rfl⟩
  have htc : ∃ xs, jsOr (jsDflt tools (jarr [])) (jarr []) = jarr xs := by
    rcases ht with h | ⟨xs, rfl⟩
    · cases tools with
      | jundef => exact ⟨[], rfl⟩
      | jnull => exact ⟨[], rfl⟩
      | jbool b =>
        have hb : b = false := by simpa [JVal.truthy] using h
        subst hb
        exact ⟨[], rfl⟩
      | jnum n =>
        have hn : n = 0 := by simpa [JVal.truthy] using h
        subst hn
        exact ⟨[], rfl⟩
      | jstr s2 =>
        have hs2 : s2 = "" := by simpa [JVal.truthy] using h
        subst hs2
        exact ⟨[], rfl⟩
      | jarr xs => exact ⟨xs, rfl⟩
      | jobj fs => exact absurd h (by simp [JVal.truthy])
    · exact ⟨xs, rfl⟩
  obtain ⟨ms, hms⟩ := hmc
  obtain ⟨ts, hts⟩ := htc
  simp only [toNativeRequestA, hms, hts]
  exact ⟨_, rfl⟩

/-- Witness for C8 on a turn and tool list full of malformed elements. -/
theorem c8_witness :
    ∃ r, toNativeRequestA
        (jarr [jobj [("role", jstr "tool")], jnull, jnum 7, jobj []])
        (jarr [jobj [("type", jstr "function"), ("function", jobj [("name", jstr "f")])], jnull])
        jundef jundef = .ok r :=
  c8_total_on_array_inputs _ _ _ _ (Or.inr ⟨_, rfl⟩) (Or.inr ⟨_, rfl⟩)

/-! ## C2 -/

/-- C2 counterexample: the tool turn whose content is the string not json
yields a functionResponse payload with the single field raw, not the
claimed field content. -/
theorem c2_cex_raw_not_content :
    toolPayload jsonParse (jobj [("role", jstr "tool"), ("content", jstr "not json")])
      = jobj [("raw", jstr "not json")]
    ∧ objLookup (toolPayload jsonParse (jobj [("role", jstr "tool"),
        ("content", jstr "not json")])) "content" = none
    ∧ jobj [("raw", jstr "not json")] ≠ jobj [("content", jstr "not json")] := by decide

/-- C2 amended: every tool-role turn is accepted, never rejected: the loop
step always succeeds and appends the functionResponse entry; and when the
turn content is a nonempty string on which JSON parsing fails, the payload
is the object with the single field raw bound to the original string
(not content as claimed). -/
theorem c2_tool_turn_payload (parse : String → Option JVal)
    (m : JVal) (rest : List JVal) (cs : List GContent) (si : Option GContent) (s : String)
    (hrole : m.get "role" = .ok (jstr "tool"))
    (hc : m.idx "content" = jstr s) (hs : s ≠ "") (hp : parse s = none) :
    p0Loop parse (m :: rest) cs si
      = p0Loop parse rest
          (cs ++ [⟨jstr "tool", [GPart.functionResponse (toolName m) (toolPayload parse m)]⟩]) si
    ∧ toolPayload parse m = jobj [("raw", jstr s)] := by
  constructor
  · simp [p0Loop, hrole]
  · unfold toolPayload
    rw [hc]
    have ht : (jstr s).truthy = true := by simp [JVal.truthy, hs]
    rw [if_pos ht]
    simp [JVal.toJSString, hp, jsOr, ht]

/-- Witness for C2 at the not json turn of the specification. -/
theorem c2_witness :
    p0Loop jsonParse (jobj [("role", jstr "tool"), ("content", jstr "not json")] :: []) [] none
      = p0Loop jsonParse []
          ([] ++ [⟨jstr "tool", [GPart.functionResponse
            (toolName (jobj [("role", jstr "tool"), ("content", jstr "not json")]))
            (toolPayload jsonParse (jobj [("role", jstr "tool"), ("content", jstr "not json")]))]⟩])
          none
    ∧ toolPayload jsonParse (jobj [("role", jstr "tool"), ("content", jstr "not json")])
        = jobj [("raw", jstr "not json")] :=
  c2_tool_turn_payload jsonParse (jobj [("role", jstr "tool"), ("content", jstr "not json")])
    [] [] none "not json" (by decide) (by decide) (by decide) (by decide)

/-! ## C3 -/

/-- The last in-sequence system turn of a neutral turn list, in the sense
of the third variant's role test. -/
def lastSys : List JVal → Option JVal
  | [] => none
  | m :: rest =>
    match lastSys rest with
    | some m2 => some m2
    | none => if m.get "role" = .ok (jstr "system") then some m else none

theorem p0Loop_system_aux (parse : String → Option JVal) :
    ∀ (msgs : List JVal) (cs : List GContent) (si : Option GContent)
      (out : List GContent × Option GContent),
      p0Loop parse msgs cs si = .ok out →
      (out.2 = match lastSys msgs with
               | some m => some (sysInstrOf m)
               | none => si)
      ∧ ∀ c ∈ out.1, c ∈ cs ∨ c.role ≠ jstr "system" := by
  intro msgs
  induction msgs with
  | nil =>
    intro cs si out h
    simp only [p0Loop, Except.ok.injEq] at h
    subst h
    exact ⟨rfl, fun c hc => Or.inl hc⟩
  | cons m rest ih =>
    intro cs si out h
    simp only [p0Loop] at h
    cases hget : m.get "role" with
    | error e => rw [hget] at h; exact absurd h (by simp)
    | ok role =>
      rw [hget] at h
      dsimp only at h
      by_cases hsys : role = jstr "system"
      · rw [if_pos hsys] at h
        obtain ⟨ih1, ih2⟩ := ih cs (some (sysInstrOf m)) out h
        refine ⟨?_, ih2⟩
        have hcond : m.get "role" = .ok (jstr "system") := by rw [hget, hsys]
        cases hls : lastSys rest with
        | none =>
          rw [hls] at ih1
          simp [lastSys, hls, hcond, ih1]
        | some m2 =>
          rw [hls] at ih1
          simp [lastSys, hls, ih1]
      · rw [if_neg hsys] at h
        have hcond : ¬ m.get "role" = .ok (jstr "system") := by
          rw [hget]
          intro hcc
          exact hsys (by injection hcc)
        by_cases htool : role = jstr "tool"
        · rw [if_pos htool] at h
          obtain ⟨ih1, ih2⟩ := ih _ si out h
          constructor
          · cases hls : lastSys rest with
            | none => rw [hls] at ih1; simp [lastSys, hls, hcond, ih1]
            | some m2 => rw [hls] at ih1; simp [lastSys, hls, ih1]
          · intro c hcm
            rcases ih2 c hcm with hin | hne
            · rcases List.mem_append.mp hin with hin2 | hin2
              · exact Or.inl hin2
              · refine Or.inr ?_
                rw [List.mem_singleton.mp hin2]
                exact (by decide : (jstr "tool" : JVal) ≠ jstr "system")
            · exact Or.inr hne
        · rw [if_neg htool] at h
          obtain ⟨ih1, ih2⟩ := ih _ si out h
          constructor
          · cases hls : lastSys rest with
            | none => rw [hls] at ih1; simp [lastSys, hls, hcond, ih1]
            | some m2 => rw [hls] at ih1; simp [lastSys, hls, ih1]
          · intro c hcm
            rcases ih2 c hcm with hin | hne
            · rcases List.mem_append.mp hin with hin2 | hin2
              · exact Or.inl hin2
              · refine Or.inr ?_
                rw [List.mem_singleton.mp hin2]
                by_cases ha : role = jstr "assistant"
                · simp [ha]
                · by_cases hu : role = jstr "user"
                  · simp [ha, hu]
                  · simp [ha, hu, hsys]
            · exact Or.inr hne

/-- C3 counterexample: with the explicit system parameter A and a single
in-sequence system turn with content B, the resulting system instruction
carries B, not the claimed A: the in-sequence turn overrides the explicit
parameter rather than the other way around. -/
theorem c3_cex_explicit_param_overridden :
    p0Contents jsonParse (jstr "A") [jobj [("role", jstr "system"), ("content", jstr "B")]]
      = .ok ([], some ⟨jstr "system", [GPart.text (jstr "B")]⟩)
    ∧ (some (⟨jstr "system", [GPart.text (jstr "B")]⟩ : GContent))
        ≠ some ⟨jstr "system", [GPart.text (jstr "A")]⟩ := by decide

/-- C3 amended: system turns are removed from the turn sequence and merged
into the system-instruction field with last-write-wins among in-sequence
system turns; the explicitly supplied system parameter only initializes the
instruction and is overridden by any in-sequence system turn (the converse
of the claimed precedence). -/
theorem c3_system_instruction_merge (parse : String → Option JVal)
    (sysParam : JVal) (msgs : List JVal)
    (cs : List GContent) (si : Option GContent)
    (h : p0Contents parse sysParam msgs = .ok (cs, si)) :
    (∀ c ∈ cs, c.role ≠ jstr "system")
    ∧ si = (match lastSys msgs with
            | some m => some (sysInstrOf m)
            | none => p0SysParam sysParam) := by
  obtain ⟨h1, h2⟩ := p0Loop_system_aux parse msgs [] (p0SysParam sysParam) (cs, si) h
  refine ⟨?_, h1⟩
  intro c hc
  rcases h2 c hc with hin | hne
  · exact absurd hin (List.not_mem_nil c)
  · exact hne

/-- Witness for C3: a conversation with two system turns and the explicit
parameter S keeps only the later in-sequence instruction. -/
theorem c3_witness :
    (∀ c ∈ ([⟨jstr "user", [GPart.text (jstr "hi")]⟩] : List GContent),
        c.role ≠ jstr "system")
    ∧ (some (⟨jstr "system", [GPart.text (jstr "B2")]⟩ : GContent))
        = (match lastSys [jobj [("role", jstr "system"), ("content", jstr "B1")],
              jobj [("role", jstr "user"), ("content", jstr "hi")],
              jobj [("role", jstr "system"), ("content", jstr "B2")]] with
           | some m => some (sysInstrOf m)
           | none => p0SysParam (jstr "S")) :=
  c3_system_instruction_merge jsonParse (jstr "S")
    [jobj [("role", jstr "system"), ("content", jstr "B1")],
     jobj [("role", jstr "user"), ("content", jstr "hi")],
     jobj [("role", jstr "system"), ("content", jstr "B2")]]
    [⟨jstr "user", [GPart.text (jstr "hi")]⟩]
    (some ⟨jstr "system", [GPart.text (jstr "B2")]⟩)
    (by decide)

/-! ## C6 -/

theorem fgcLoop_calls_nil (uuid : Nat → String) :
    ∀ (parts : List JVal) (text : String) (k : Nat),
      ((fgcLoop uuid parts text k).2 = []
        ↔ ∀ p ∈ parts, (p.optIdx "functionCall").truthy = false) := by
  intro parts
  induction parts with
  | nil => intro text k; simp [fgcLoop]
  | cons p rest ih =>
    intro text k
    simp only [fgcLoop]
    by_cases hfc : (p.optIdx "functionCall").truthy
    · rw [if_pos hfc]
      simp [List.forall_mem_cons, hfc]
    · rw [if_neg hfc]
      simp only [List.forall_mem_cons]
      rw [ih]
      simp [hfc]

/-- C6 counterexample: the second variant's fromGeminiToOpenAIShape on a
response without any function-call fragment produces a message whose
tool_calls key is present and bound to the empty list, not absent as
claimed. -/
theorem c6_cex_empty_list_key_present :
    fromGeminiToOpenAIShape (fun _ => "u") (jobj []) = .ok ⟨"", []⟩
    ∧ objLookup (BChoice.msgJVal ⟨"", []⟩) "tool_calls" = some (jarr [])
    ∧ some (jarr []) ≠ (none : Option JVal) := by decide

/-- C6 amended: the first variant's fromGeminiCandidate carries tool_calls
exactly when some part of the first candidate has a truthy functionCall,
and the field is never present as an empty list; the second and third
variants instead always include the tool_calls key, as an empty list when
no fragment is present (the counterexample). -/
theorem c6_tool_calls_iff (uuid : Nat → String) (cand : JVal) (parts : List JVal)
    (msg : AssistantMsg)
    (hp : candParts cand = .ok parts)
    (h : fromGeminiCandidate uuid cand = .ok msg) :
    (msg.tool_calls.isSome ↔ ∃ p ∈ parts, (p.optIdx "functionCall").truthy = true)
    ∧ msg.tool_calls ≠ some [] := by
  unfold fromGeminiCandidate at h
  rw [hp] at h
  have hmsg : msg = ⟨(fgcLoop uuid parts "" 0).1,
      if (fgcLoop uuid parts "" 0).2.length != 0 then some (fgcLoop uuid parts "" 0).2
      else none⟩ := by
    have h2 : Except.ok (ε := String)
        (⟨(fgcLoop uuid parts "" 0).1,
          if (fgcLoop uuid parts "" 0).2.length != 0 then some (fgcLoop uuid parts "" 0).2
          else none⟩ : AssistantMsg) = .ok msg := h
    injection h2 with h3
    exact h3.symm
  subst hmsg
  by_cases hl : (fgcLoop uuid parts "" 0).2 = []
  · rw [fgcLoop_calls_nil uuid parts "" 0] at hl
    constructor
    · simp only [fgcLoop_calls_nil uuid parts "" 0]
      rw [if_neg]
      · simp only [Option.isSome_none, Bool.false_eq_true, false_iff]
        push_neg
        intro p hpm
        simp [hl p hpm]
      · rw [(fgcLoop_calls_nil uuid parts "" 0).mpr hl]
        simp
    · rw [if_neg]
      · simp
      · rw [(fgcLoop_calls_nil uuid parts "" 0).mpr hl]
        simp
  · have hlen : ((fgcLoop uuid parts "" 0).2.length != 0) = true := by
      simpa using hl
    rw [if_pos hlen]
    constructor
    · simp only [Option.isSome_some, true_iff]
      by_contra hno
      push_neg at hno
      apply hl
      rw [fgcLoop_calls_nil uuid parts "" 0]
      intro p hpm
      have := hno p hpm
      simpa using this
    · intro hc
      injection hc with hc2
      exact hl hc2

/-- Witness for C6: a candidate with one text part and one function-call
part yields a present, non-empty tool_calls field. -/
theorem c6_witness :
    ((some [(⟨"0", jstr "f", "\x7b\x7d"⟩ : ToolCall)]).isSome
      ↔ ∃ p ∈ [jobj [("text", jstr "hi")], jobj [("functionCall", jobj [("name", jstr "f")])]],
          (p.optIdx "functionCall").truthy = true)
    ∧ (some [(⟨"0", jstr "f", "\x7b\x7d"⟩ : ToolCall)]) ≠ some [] :=
  c6_tool_calls_iff (fun k => natStr k)
    (jobj [("content", jobj [("parts", jarr [jobj [("text", jstr "hi")],
      jobj [("functionCall", jobj [("name", jstr "f")])]])])])
    [jobj [("text", jstr "hi")], jobj [("functionCall", jobj [("name", jstr "f")])]]
    ⟨"hi", some [⟨"0", jstr "f", "\x7b\x7d"⟩]⟩
    (by decide) (by decide)

/-! ## C9 -/

theorem p0Extract_names (time : Nat → Nat) :
    ∀ (parts : List JVal) (k : Nat) (tcs : List ToolCall),
      p0Extract time parts k = .ok tcs →
      tcs.map ToolCall.name
        = (parts.filter fun p => ((p.idx "functionCall").optIdx "name").truthy).map
            (fun p => (p.idx "functionCall").optIdx "name") := by
  intro parts
  induction parts with
  | nil =>
    intro k tcs h
    simp only [p0Extract, Except.ok.injEq] at h
    subst h
    simp
  | cons p rest ih =>
    intro k tcs h
    simp only [p0Extract] at h
    cases hget : p.get "functionCall" with
    | error e => rw [hget] at h; exact absurd h (by simp)
    | ok fc =>
      rw [hget] at h
      dsimp only at h
      have hfc : fc = p.idx "functionCall" := JVal.get_ok hget
      subst hfc
      by_cases hnm : ((p.idx "functionCall").optIdx "name").truthy
      · rw [if_pos hnm] at h
        cases hrec : p0Extract time rest (k + 1) with
        | error e => rw [hrec] at h; exact absurd h (by simp)
        | ok tcs2 =>
          rw [hrec] at h
          simp only [Except.ok.injEq] at h
          subst h
          rw [List.filter_cons_of_pos (by simpa using hnm)]
          simp [ih _ _ hrec]
      · rw [if_neg hnm] at h
        rw [List.filter_cons_of_neg (by simpa using hnm)]
        exact ih _ _ h

theorem p0Extract_id_mem (time : Nat → Nat) :
    ∀ (parts : List JVal) (k : Nat) (tcs : List ToolCall),
      p0Extract time parts k = .ok tcs →
      ∀ tc ∈ tcs, ∃ j, k ≤ j ∧ tc.id = p0id (time j) j := by
  intro parts
  induction parts with
  | nil =>
    intro k tcs h
    simp only [p0Extract, Except.ok.injEq] at h
    subst h
    simp
  | cons p rest ih =>
    intro k tcs h
    simp only [p0Extract] at h
    cases hget : p.get "functionCall" with
    | error e => rw [hget] at h; exact absurd h (by simp)
    | ok fc =>
      rw [hget] at h
      dsimp only at h
      by_cases hnm : (fc.optIdx "name").truthy
      · rw [if_pos hnm] at h
        cases hrec : p0Extract time rest (k + 1) with
        | error e => rw [hrec] at h; exact absurd h (by simp)
        | ok tcs2 =>
          rw [hrec] at h
          simp only [Except.ok.injEq] at h
          subst h
          intro tc htc
          rcases List.mem_cons.mp htc with rfl | hmem
          · exact ⟨k, Nat.le_refl k, rfl⟩
          · obtain ⟨j, hj, hid⟩ := ih _ _ hrec tc hmem
            exact ⟨j, by omega, hid⟩
      · rw [if_neg hnm] at h
        intro tc htc
        obtain ⟨j, hj, hid⟩ := ih _ _ h tc htc
        exact ⟨j, hj, hid⟩

theorem p0Extract_ids_pairwise (time : Nat → Nat) :
    ∀ (parts : List JVal) (k : Nat) (tcs : List ToolCall),
      p0Extract time parts k = .ok tcs →
      (tcs.map ToolCall.id).Pairwise (· ≠ ·) := by
  intro parts
  induction parts with
  | nil =>
    intro k tcs h
    simp only [p0Extract, Except.ok.injEq] at h
    subst h
    simp
  | cons p rest ih =>
    intro k tcs h
    simp only [p0Extract] at h
    cases hget : p.get "functionCall" with
    | error e => rw [hget] at h; exact absurd h (by simp)
    | ok fc =>
      rw [hget] at h
      dsimp only at h
      by_cases hnm : (fc.optIdx "name").truthy
      · rw [if_pos hnm] at h
        cases hrec : p0Extract time rest (k + 1) with
        | error e => rw [hrec] at h; exact absurd h (by simp)
        | ok tcs2 =>
          rw [hrec] at h
          simp only [Except.ok.injEq] at h
          subst h
          simp only [List.map_cons, List.pairwise_cons]
          constructor
          · intro b hb
            obtain ⟨tc, htc, rfl⟩ := List.mem_map.mp hb
            obtain ⟨j, hj, hid⟩ := p0Extract_id_mem time rest (k + 1) tcs2 hrec tc htc
            rw [hid]
            exact p0id_ne (by omega)
          · exact ih _ _ hrec
      · rw [if_neg hnm] at h
        exact ih _ _ h

theorem fgcLoop_names (uuid : Nat → String) :
    ∀ (parts : List JVal) (text : String) (k : Nat),
      (fgcLoop uuid parts text k).2.map ToolCall.name
        = (parts.filter fun p => (p.optIdx "functionCall").truthy).map
            (fun p => (p.optIdx "functionCall").idx "name") := by
  intro parts
  induction parts with
  | nil => intro text k; simp [fgcLoop]
  | cons p rest ih =>
    intro text k
    simp only [fgcLoop]
    by_cases hfc : (p.optIdx "functionCall").truthy
    · rw [if_pos hfc, List.filter_cons_of_pos (by simpa using hfc)]
      simp [ih]
    · rw [if_neg hfc, List.filter_cons_of_neg (by simpa using hfc)]
      exact ih _ _

theorem fgcLoop_id_mem (uuid : Nat → String) :
    ∀ (parts : List JVal) (text : String) (k : Nat),
      ∀ tc ∈ (fgcLoop uuid parts text k).2, ∃ j, k ≤ j ∧ tc.id = uuid j := by
  intro parts
  induction parts with
  | nil => intro text k; simp [fgcLoop]
  | cons p rest ih =>
    intro text k
    simp only [fgcLoop]
    by_cases hfc : (p.optIdx "functionCall").truthy
    · rw [if_pos hfc]
      intro tc htc
      rcases List.mem_cons.mp htc with rfl | hmem
      · exact ⟨k, Nat.le_refl k, rfl⟩
      · obtain ⟨j, hj, hid⟩ := ih _ (k + 1) tc hmem
        exact ⟨j, by omega, hid⟩
    · rw [if_neg hfc]
      exact ih _ k

theorem fgcLoop_ids_pairwise (uuid : Nat → String) (hu : Function.Injective uuid) :
    ∀ (parts : List JVal) (text : String) (k : Nat),
      ((fgcLoop uuid parts text k).2.map ToolCall.id).Pairwise (· ≠ ·) := by
  intro parts
  induction parts with
  | nil => intro text k; simp [fgcLoop]
  | cons p rest ih =>
    intro text k
    simp only [fgcLoop]
    by_cases hfc : (p.optIdx "functionCall").truthy
    · rw [if_pos hfc]
      simp only [List.map_cons, List.pairwise_cons]
      constructor
      · intro b hb
        obtain ⟨tc, htc, rfl⟩ := List.mem_map.mp hb
        obtain ⟨j, hj, hid⟩ := fgcLoop_id_mem uuid rest _ (k + 1) tc htc
        rw [hid]
        intro he
        have := hu he
        omega
      · exact ih _ _
    · rw [if_neg hfc]
      exact ih _ _

/-- C9: both response normalizations emit the tool calls of the first
candidate in fragment order with pairwise distinct ids: the third variant's
counter-based ids (call_, Date.now(), underscore, counter) are distinct
whatever values Date.now() returns, and the first variant's ids are
distinct for any non-repeating uuid source. -/
theorem c9_tool_call_order_and_distinct_ids
    (time : Nat → Nat) (uuid : Nat → String) (parts : List JVal) (tcs : List ToolCall)
    (hu : Function.Injective uuid)
    (h : p0Extract time parts 0 = .ok tcs) :
    tcs.map ToolCall.name
        = (parts.filter fun p => ((p.idx "functionCall").optIdx "name").truthy).map
            (fun p => (p.idx "functionCall").optIdx "name")
    ∧ (tcs.map ToolCall.id).Pairwise (· ≠ ·)
    ∧ (fgcLoop uuid parts "" 0).2.map ToolCall.name
        = (parts.filter fun p => (p.optIdx "functionCall").truthy).map
            (fun p => (p.optIdx "functionCall").idx "name")
    ∧ ((fgcLoop uuid parts "" 0).2.map ToolCall.id).Pairwise (· ≠ ·) :=
  ⟨p0Extract_names time parts 0 tcs h,
   p0Extract_ids_pairwise time parts 0 tcs h,
   fgcLoop_names uuid parts "" 0,
   fgcLoop_ids_pairwise uuid hu parts "" 0⟩

/-- Witness for C9 on a response with two function-call fragments around a
text fragment. -/
theorem c9_witness :
    ([(⟨"call_7_0", jstr "a", "\x7b\x7d"⟩ : ToolCall),
      ⟨"call_7_1", jstr "b", "\x7b\"q\":1\x7d"⟩].map ToolCall.name
        = (([jobj [("functionCall", jobj [("name", jstr "a")])],
            jobj [("text", jstr "x")],
            jobj [("functionCall", jobj [("name", jstr "b"),
              ("args", jobj [("q", jnum 1)])])]].filter
              fun p => ((p.idx "functionCall").optIdx "name").truthy).map
            (fun p => (p.idx "functionCall").optIdx "name")))
    ∧ (([(⟨"call_7_0", jstr "a", "\x7b\x7d"⟩ : ToolCall),
        ⟨"call_7_1", jstr "b", "\x7b\"q\":1\x7d"⟩].map ToolCall.id).Pairwise (· ≠ ·))
    ∧ ((fgcLoop natStr [jobj [("functionCall", jobj [("name", jstr "a")])],
          jobj [("text", jstr "x")],
          jobj [("functionCall", jobj [("name", jstr "b"),
            ("args", jobj [("q", jnum 1)])])]] "" 0).2.map ToolCall.name
        = (([jobj [("functionCall", jobj [("name", jstr "a")])],
            jobj [("text", jstr "x")],
            jobj [("functionCall", jobj [("name", jstr "b"),
              ("args", jobj [("q", jnum 1)])])]].filter
              fun p => (p.optIdx "functionCall").truthy).map
            (fun p => (p.optIdx "functionCall").idx "name")))
    ∧ (((fgcLoop natStr [jobj [("functionCall", jobj [("name", jstr "a")])],
          jobj [("text", jstr "x")],
          jobj [("functionCall", jobj [("name", jstr "b"),
            ("args", jobj [("q", jnum 1)])])]] "" 0).2.map ToolCall.id).Pairwise (· ≠ ·)) :=
  c9_tool_call_order_and_distinct_ids (fun _ => 7) natStr
    [jobj [("functionCall", jobj [("name", jstr "a")])],
     jobj [("text", jstr "x")],
     jobj [("functionCall", jobj [("name", jstr "b"), ("args", jobj [("q", jnum 1)])])]]
    [⟨"call_7_0", jstr "a", "\x7b\x7d"⟩, ⟨"call_7_1", jstr "b", "\x7b\"q\":1\x7d"⟩]
    natStr_injective (by decide)

/-! ## C1 -/

/-- C1 counterexample: for the transient fault sequence fetch failed then a
200 response with body, the claim (maxAttempts 2) predicts one retry and
the final successful body; the gateway instead performs exactly one attempt
and surfaces a 500 immediately. -/
theorem c1_cex_transient_fault_not_retried :
    (aipipeA "https://upstream.example/run" "Bearer token" "" (jobj []) "T"
        (fun i => if i = 0 then .fault "fetch failed" else .resp 200 "\x7b\x7d")).1.status = 500
    ∧ (aipipeA "https://upstream.example/run" "Bearer token" "" (jobj []) "T"
        (fun i => if i = 0 then .fault "fetch failed" else .resp 200 "\x7b\x7d")).2.length = 1
    ∧ (1 : Nat) ≠ 2 := by decide

/-- C1 amended: when an endpoint and credential are configured, the gateway
makes exactly one upstream attempt per request, with no retry and no
backoff: a transport fault on the first attempt is surfaced immediately as
a 500 carrying the error message, and a well-formed non-2xx response is
surfaced immediately with its upstream status and detail. -/
theorem c1_single_attempt_no_retry (url auth hdr : String) (body : JVal) (now : String)
    (net : Nat → FetchOutcome)
    (hurl : url ≠ "") (htok : (if hdr ≠ "" then hdr else auth) ≠ "") :
    (aipipeA url auth hdr body now net).2.length = 1
    ∧ (∀ msg, net 0 = .fault msg →
        (aipipeA url auth hdr body now net).1
          = { status := 500, body := jobj [("ok", jbool false),
              ("error", jstr (if msg ≠ "" then msg else "Error"))] })
    ∧ (∀ st text, net 0 = .resp st text → ¬(200 ≤ st ∧ st < 300) →
        (aipipeA url auth hdr body now net).1
          = { status := st, body := jobj [("ok", jbool false),
              ("error", jstr ("AI Pipe upstream " ++ natStr st)), ("detail", jstr text)] }) := by
  unfold aipipeA
  rw [if_neg hurl, if_neg htok]
  refine ⟨?_, ?_, ?_⟩
  · cases hnet : net 0 with
    | fault msg => simp
    | resp st text =>
      dsimp only
      by_cases hok : 200 ≤ st ∧ st < 300
      · rw [if_pos hok]
        cases jsonParse text <;> simp
      · rw [if_neg hok]
        simp
  · intro msg hnet
    rw [hnet]
  · intro st text hnet hnok
    rw [hnet]
    dsimp only
    rw [if_neg hnok]

/-- Witness for C1: a configured gateway given a 404 on its only attempt. -/
theorem c1_witness :
    (aipipeA "https://upstream.example/run" "Bearer token" "" (jobj []) "T"
        (fun _ => .resp 404 "nope")).2.length = 1
    ∧ (∀ msg, (fun (_ : Nat) => FetchOutcome.resp 404 "nope") 0 = .fault msg →
        (aipipeA "https://upstream.example/run" "Bearer token" "" (jobj []) "T"
          (fun _ => .resp 404 "nope")).1
          = { status := 500, body := jobj [("ok", jbool false),
              ("error", jstr (if msg ≠ "" then msg else "Error"))] })
    ∧ (∀ st text, (fun (_ : Nat) => FetchOutcome.resp 404 "nope") 0 = .resp st text →
        ¬(200 ≤ st ∧ st < 300) →
        (aipipeA "https://upstream.example/run" "Bearer token" "" (jobj []) "T"
          (fun _ => .resp 404 "nope")).1
          = { status := st, body := jobj [("ok", jbool false),
              ("error", jstr ("AI Pipe upstream " ++ natStr st)), ("detail", jstr text)] }) :=
  c1_single_attempt_no_retry "https://upstream.example/run" "Bearer token" "" (jobj []) "T"
    (fun _ => .resp 404 "nope") (by decide) (by decide)

/-! ## C5 -/

/-- C5 counterexample: the third variant's gateway with an endpoint
configured and no credential anywhere still makes one upstream call,
without an Authorization header, and passes the upstream 200 through: no
unauthorized classification and a nonzero call count. -/
theorem c5_cex_third_variant_calls_upstream :
    aipipeC "https://upstream.example/run" "" "" "" (jobj []) "T"
        (fun _ => .resp 200 "\x7b\x7d")
      = ({ status := 200, body := jobj [] }, [none])
    ∧ (200 : Nat) ≠ 401
    ∧ ([(none : Option String)] : List (Option String)).length ≠ 0 := by decide

/-- C5 amended: with an endpoint configured and no credential available,
the first variant's gateway returns the 401 unauthorized classification
with zero outbound calls, as claimed; the third variant instead performs
its single upstream call without an Authorization header. -/
theorem c5_unauthorized_classification (url : String) (body : JVal) (now : String)
    (net : Nat → FetchOutcome) (hurl : url ≠ "") :
    aipipeA url "" "" body now net
      = ({ status := 401, body := jobj [("ok", jbool false), ("error", jstr "Unauthorized")] },
         [])
    ∧ (aipipeC url "" "" "" body now net).2 = [none] := by
  constructor
  · unfold aipipeA
    rw [if_neg hurl]
    simp
  · unfold aipipeC
    rw [if_neg hurl]
    cases net 0 <;> simp [normalizeToken, strOr, jsTrim, dequoteOnce]

/-- Witness for C5 against a 503 upstream. -/
theorem c5_witness :
    aipipeA "https://upstream.example/run" "" "" (jobj []) "T" (fun _ => .resp 503 "x")
      = ({ status := 401, body := jobj [("ok", jbool false), ("error", jstr "Unauthorized")] },
         [])
    ∧ (aipipeC "https://upstream.example/run" "" "" "" (jobj []) "T"
        (fun _ => .resp 503 "x")).2 = [none] :=
  c5_unauthorized_classification "https://upstream.example/run" (jobj []) "T"
    (fun _ => .resp 503 "x") (by decide)
